import Mathlib

/-!
# In-memory catalog store (`backend/server/db.go`)

A shallow embedding of the `DB` type of `backend/server` and of its methods.

* Go strings are modelled by `String` (sequences of runes), which covers every
  valid UTF-8 string; `strings.Contains` and `strings.HasPrefix` then coincide
  with sub-list and prefix tests on the rune sequences.
* The Unicode case tables are not part of the repository: the development is
  parametric in them (`CaseLib`), and `asciiCase` is the instance used for
  concrete evaluation.
* The mutex only serialises the methods, so each method is a function on the
  state; a method returns the state it leaves together with its outcome, which
  is either the returned value or a panic.
* The buffered channel `updates` is modelled by its queue, its capacity and
  its closed flag, with the semantics of a non-blocking send (`select` with a
  `default` branch) and of a receive.
-/

namespace Registry

/-! ## types.go -/

/-- The struct `Resource` of types.go; `OperatingSystem` and `Source` are
string types in the source. -/
structure Resource where
  ID : String
  Name : String
  Description : String
  Logo : String
  Contributor : String
  OperatingSystem : String
  Source : String
  CustomTags : List String
deriving DecidableEq, Repr

/-- The struct `Module`, which embeds `Resource`. -/
structure Module extends Resource
deriving DecidableEq, Repr

/-- The struct `Template`, which embeds `Resource`. -/
structure Template extends Resource
deriving DecidableEq, Repr

/-- The dynamic values stored in `UpdateEvent.Data` by db.go. -/
inductive EventData where
  | module (m : Module)
  | template (t : Template)
deriving DecidableEq, Repr

/-- The struct `UpdateEvent`; the field `Typ` is the field `Type` of the source. -/
structure UpdateEvent where
  Typ : String
  Data : EventData
deriving DecidableEq, Repr

/-! ## The standard library functions called by db.go -/

/-- Case handling of the Go standard library: `unicode.ToLower` on one rune
and `strings.EqualFold` on two strings. -/
structure CaseLib where
  lowerRune : Char → Char
  EqualFold : String → String → Bool

/-- The function `strings.ToLower`: maps `unicode.ToLower` over the runes. -/
def ToLower (L : CaseLib) (s : String) : String :=
  String.mk (s.data.map L.lowerRune)

/-- The function `strings.HasPrefix`. -/
def HasPrefix (s pre : String) : Bool :=
  pre.data.isPrefixOf s.data

/-- The function `strings.Contains`: `substr` starts at some position of `s`. -/
def Contains (s substr : String) : Bool :=
  s.data.tails.any (fun t => substr.data.isPrefixOf t)

/-- An instance of the case tables restricted to ASCII letters. -/
def asciiCase : CaseLib where
  lowerRune := Char.toLower
  EqualFold := fun s t => decide (s.data.map Char.toLower = t.data.map Char.toLower)

/-! ## The channel `updates` -/

/-- State of a buffered channel of `UpdateEvent`. -/
structure Chan where
  buf : List UpdateEvent
  cap : Nat
  closed : Bool
deriving DecidableEq, Repr

/-- The expression `make(chan UpdateEvent, n)`. -/
def makeChan (n : Nat) : Chan :=
  { buf := [], cap := n, closed := false }

/-- The statement `select { case ch <- e: default: }`. A send on a closed
channel panics (`none`); otherwise the event is queued when there is room and
the default branch is taken when the buffer is full. -/
def Chan.trySend (ch : Chan) (e : UpdateEvent) : Option Chan :=
  if ch.closed then none
  else if ch.buf.length < ch.cap then some { ch with buf := ch.buf ++ [e] }
  else some ch

/-- The statement `close(ch)`; closing a closed channel panics (`none`). -/
def Chan.close (ch : Chan) : Option Chan :=
  if ch.closed then none else some { ch with closed := true }

/-- Result of the receive `update, ok := <-ch`. -/
inductive Recv where
  | value (update : UpdateEvent) (rest : Chan)
  | done
  | blocked
deriving DecidableEq, Repr

/-- The receive `update, ok := <-ch`: the oldest buffered event with
`ok = true` when there is one (also on a closed channel), `ok = false` when the
channel is closed and empty, and otherwise the receiver blocks. -/
def Chan.recv (ch : Chan) : Recv :=
  match ch.buf with
  | e :: rest => Recv.value e { ch with buf := rest }
  | [] => if ch.closed then Recv.done else Recv.blocked

/-! ## db.go -/

/-- The struct `DB` (the mutex carries no data). -/
structure DB where
  modules : List Module
  templates : List Template
  updates : Chan
  closed : Bool
deriving DecidableEq, Repr

/-- How a method call ends. -/
inductive Outcome (α : Type) where
  | returned (v : α)
  | panicked (msg : String)
deriving DecidableEq, Repr

/-- A finished method call: the state it leaves and its outcome. -/
structure Call (α : Type) where
  db : DB
  out : Outcome α
deriving DecidableEq, Repr

/-- The runtime error of a send on a closed channel. -/
def sendOnClosed : String := "send on closed channel"

/-- The function `NewDB`. -/
def NewDB : DB :=
  { modules := [], templates := [], updates := makeChan 100, closed := false }

/-- The non-blocking send that ends every mutation, on the state `s` reached
by the mutation, followed by `return v`. -/
def emit {α : Type} (s : DB) (e : UpdateEvent) (v : α) : Call α :=
  match s.updates.trySend e with
  | some ch => { db := { s with updates := ch }, out := Outcome.returned v }
  | none => { db := s, out := Outcome.panicked sendOnClosed }

/-- The method `DB.AddModule`. -/
def AddModule (s : DB) (m : Module) : Call Unit :=
  emit { s with modules := s.modules ++ [m] }
    { Typ := "module_added", Data := EventData.module m } ()

/-- The method `DB.AddTemplate`. -/
def AddTemplate (s : DB) (t : Template) : Call Unit :=
  emit { s with templates := s.templates ++ [t] }
    { Typ := "template_added", Data := EventData.template t } ()

/-- The filtering loop of `GetModules` and `GetTemplates`:
`for _, x := range xs { if keep x { filtered = append(filtered, x) } }`. -/
def filterLoop {α : Type} (keep : α → Bool) (xs : List α) : List α :=
  xs.foldl (fun filtered x => if keep x then filtered ++ [x] else filtered) []

/-- The method `DB.GetModules`. -/
def GetModules (L : CaseLib) (s : DB) (nameFilter : String) : List Module :=
  if nameFilter = "" then s.modules
  else filterLoop (fun m => Contains (ToLower L m.Name) (ToLower L nameFilter)) s.modules

/-- The method `DB.GetTemplates`. -/
def GetTemplates (L : CaseLib) (s : DB) (nameFilter : String) : List Template :=
  if nameFilter = "" then s.templates
  else filterLoop (fun t => Contains (ToLower L t.Name) (ToLower L nameFilter)) s.templates

/-- The search `for i, x := range xs { if hit x { ... return } }`: the first
index at or after `i` whose element satisfies `hit`, with that element. -/
def rangeFind {α : Type} (hit : α → Bool) : List α → Nat → Option (Nat × α)
  | [], _ => none
  | x :: xs, i => if hit x then some (i, x) else rangeFind hit xs (i + 1)

/-- The removal `xs[i] = xs[len(xs)-1]; xs = xs[:len(xs)-1]`. -/
def swapRemove {α : Type} (xs : List α) (i : Nat) : List α :=
  match xs.getLast? with
  | some l => (xs.set i l).dropLast
  | none => xs

/-- The method `DB.DeleteModule`. -/
def DeleteModule (L : CaseLib) (s : DB) (id : String) : Call Bool :=
  match rangeFind (fun m : Module => L.EqualFold m.ID id) s.modules 0 with
  | some (i, m) =>
      emit { s with modules := swapRemove s.modules i }
        { Typ := "module_deleted", Data := EventData.module m } true
  | none => { db := s, out := Outcome.returned false }

/-- The method `DB.DeleteTemplate`. -/
def DeleteTemplate (L : CaseLib) (s : DB) (id : String) : Call Bool :=
  match rangeFind (fun t : Template => L.EqualFold t.ID id) s.templates 0 with
  | some (i, t) =>
      emit { s with templates := swapRemove s.templates i }
        { Typ := "template_deleted", Data := EventData.template t } true
  | none => { db := s, out := Outcome.returned false }

/-- The loop of `GetModuleSuggestions` and `GetTemplateSuggestions`:
`for _, x := range xs { if strings.HasPrefix(strings.ToLower(x.Name), prefix)
{ suggestions = append(suggestions, x.Name) } }`. -/
def suggestLoop {α : Type} (L : CaseLib) (name : α → String) (pre : String) (xs : List α) :
    List String :=
  xs.foldl
    (fun suggestions x =>
      if HasPrefix (ToLower L (name x)) pre then suggestions ++ [name x] else suggestions)
    []

/-- The method `DB.GetModuleSuggestions`. -/
def GetModuleSuggestions (L : CaseLib) (s : DB) (pre : String) : List String :=
  suggestLoop L (fun m : Module => m.Name) (ToLower L pre) s.modules

/-- The method `DB.GetTemplateSuggestions`. -/
def GetTemplateSuggestions (L : CaseLib) (s : DB) (pre : String) : List String :=
  suggestLoop L (fun t : Template => t.Name) (ToLower L pre) s.templates

/-- The method `DB.Updates`. -/
def Updates (s : DB) : Chan :=
  s.updates

/-- The method `DB.Close`. -/
def Close (s : DB) : Call Unit :=
  if s.closed then { db := s, out := Outcome.returned () }
  else
    match s.updates.close with
    | some ch => { db := { s with closed := true, updates := ch }, out := Outcome.returned () }
    | none => { db := { s with closed := true }, out := Outcome.panicked "close of closed channel" }

/-! ## handlers.go: the event loop of `streamEvents` -/

/-- How the event loop of `streamEvents` stands after its receives. -/
inductive LoopEnd where
  | returned
  | waiting
  | unfinished
deriving DecidableEq, Repr

/-- The event loop of `Server.streamEvents` for a client that stays connected,
run for at most `fuel` receives on the channel returned by `Updates`: every
received update is written to the response (marshalling a module or a template
does not fail), `ok = false` makes the handler return, and an empty open
channel leaves the handler waiting. The result is the list of updates written
and the way the loop stands. -/
def eventLoop : Nat → Chan → List UpdateEvent × LoopEnd
  | 0, _ => ([], LoopEnd.unfinished)
  | fuel + 1, ch =>
    match ch.recv with
    | Recv.value update rest => (update :: (eventLoop fuel rest).1, (eventLoop fuel rest).2)
    | Recv.done => ([], LoopEnd.returned)
    | Recv.blocked => ([], LoopEnd.waiting)

/-! ## Sequences of calls -/

/-- A call of `AddModule` or `AddTemplate`. -/
inductive AddCall where
  | module (m : Module)
  | template (t : Template)
deriving DecidableEq, Repr

/-- Performs one call of `AddModule` or `AddTemplate`. -/
def addCall (s : DB) : AddCall → Call Unit
  | AddCall.module m => AddModule s m
  | AddCall.template t => AddTemplate s t

/-- Performs the calls one after another; `none` when one of them panics. -/
def runAdds : DB → List AddCall → Option DB
  | s, [] => some s
  | s, c :: cs =>
    match (addCall s c).out with
    | Outcome.returned _ => runAdds (addCall s c).db cs
    | Outcome.panicked _ => none

/-- The modules among the added entities, in order of addition. -/
def addedModules : List AddCall → List Module
  | [] => []
  | AddCall.module m :: cs => m :: addedModules cs
  | AddCall.template _ :: cs => addedModules cs

/-- The templates among the added entities, in order of addition. -/
def addedTemplates : List AddCall → List Template
  | [] => []
  | AddCall.module _ :: cs => addedTemplates cs
  | AddCall.template t :: cs => t :: addedTemplates cs

/-- A call of one of the state-changing methods of `DB`. -/
inductive Op where
  | addModule (m : Module)
  | addTemplate (t : Template)
  | deleteModule (id : String)
  | deleteTemplate (id : String)
  | close
deriving DecidableEq, Repr

/-- The state left by one call, whether it returns or panics. -/
def step (L : CaseLib) (s : DB) : Op → DB
  | Op.addModule m => (AddModule s m).db
  | Op.addTemplate t => (AddTemplate s t).db
  | Op.deleteModule id => (DeleteModule L s id).db
  | Op.deleteTemplate id => (DeleteTemplate L s id).db
  | Op.close => (Close s).db

/-- The states that calls of the methods build from `NewDB()`. -/
inductive Reachable (L : CaseLib) : DB → Prop where
  | new : Reachable L NewDB
  | call (s : DB) (op : Op) : Reachable L s → Reachable L (step L s op)

/-- The invariant of the states built from `NewDB()`: the channel has the
capacity given by `NewDB`, holds no more events than its capacity, and is
closed exactly when the flag `closed` is set. -/
def Inv (s : DB) : Prop :=
  s.updates.cap = 100 ∧ s.updates.buf.length ≤ 100 ∧ s.updates.closed = s.closed

/-- The events delivered by at most `n` successive receives on `ch`. -/
def recvMany : Nat → Chan → List UpdateEvent
  | 0, _ => []
  | n + 1, ch =>
    match ch.recv with
    | Recv.value update rest => update :: recvMany n rest
    | Recv.done => []
    | Recv.blocked => []

/-- A call of one of the four mutating methods of `DB`. -/
inductive Mutation where
  | addModule (m : Module)
  | addTemplate (t : Template)
  | deleteModule (id : String)
  | deleteTemplate (id : String)
deriving DecidableEq, Repr

/-- Whether a call came back to its caller. -/
def Outcome.isReturned {α : Type} : Outcome α → Bool
  | Outcome.returned _ => true
  | Outcome.panicked _ => false

/-- Performs one mutation: the state it leaves and whether the call returned. -/
def mutate (L : CaseLib) (s : DB) : Mutation → DB × Bool
  | Mutation.addModule m => ((AddModule s m).db, (AddModule s m).out.isReturned)
  | Mutation.addTemplate t => ((AddTemplate s t).db, (AddTemplate s t).out.isReturned)
  | Mutation.deleteModule id =>
    ((DeleteModule L s id).db, (DeleteModule L s id).out.isReturned)
  | Mutation.deleteTemplate id =>
    ((DeleteTemplate L s id).db, (DeleteTemplate L s id).out.isReturned)

/-- Performs the mutations one after another; `none` when one of them panics. -/
def runMutations (L : CaseLib) : DB → List Mutation → Option DB
  | s, [] => some s
  | s, m :: ms => if (mutate L s m).2 then runMutations L (mutate L s m).1 ms else none

/-! ## Specification-side definitions -/

/-- The change event that a mutation of the state `s` hands to the event
queue: the added entity for an `Add`, the first entity with a matching id for
a `Delete`, and none for a `Delete` of an absent id. -/
def emittedBy (L : CaseLib) (s : DB) : Mutation → Option UpdateEvent
  | Mutation.addModule m => some { Typ := "module_added", Data := EventData.module m }
  | Mutation.addTemplate t => some { Typ := "template_added", Data := EventData.template t }
  | Mutation.deleteModule id =>
    (s.modules.find? (fun m => L.EqualFold m.ID id)).map
      (fun m => { Typ := "module_deleted", Data := EventData.module m })
  | Mutation.deleteTemplate id =>
    (s.templates.find? (fun t => L.EqualFold t.ID id)).map
      (fun t => { Typ := "template_deleted", Data := EventData.template t })

/-- The change events of a sequence of mutations applied one after another
from the state `s`, in the order of the mutations. -/
def emittedEvents (L : CaseLib) : DB → List Mutation → List UpdateEvent
  | _, [] => []
  | s, m :: ms => (emittedBy L s m).toList ++ emittedEvents L (mutate L s m).1 ms

/-- Removal as the specification words it: `new` is `old` with the first
position whose element satisfies `hit` overwritten by the last element of
`old` and the last slot dropped; `x` is the element found at that position. -/
def RemovesFirst {α : Type} (hit : α → Bool) (old new : List α) (x : α) : Prop :=
  ∃ k last, old[k]? = some x ∧ hit x = true ∧
    (∀ j y, j < k → old[j]? = some y → hit y = false) ∧
    old.getLast? = some last ∧ new = (old.set k last).dropLast

/-- What a subscriber sees that calls `Updates()` on the state `after` left by a
mutation of `before` emitting `e`: when `e` was queued, successive receives
deliver the events buffered before it and then `e`; when the channel was full,
the stream is the one that `Updates()` gave before the mutation. -/
def LateSubscriber (before after : DB) (e : UpdateEvent) : Prop :=
  (before.updates.buf.length < 100 →
      recvMany (before.updates.buf.length + 1) (Updates after) = before.updates.buf ++ [e]) ∧
    (before.updates.buf.length = 100 → Updates after = Updates before)

/-- A module with the given id and name, the other fields empty. -/
def mkModule (id name : String) : Module :=
  { ID := id, Name := name, Description := "", Logo := "", Contributor := "",
    OperatingSystem := "Linux", Source := "Official", CustomTags := [] }

/-- A template with the given id and name, the other fields empty. -/
def mkTemplate (id name : String) : Template :=
  { ID := id, Name := name, Description := "", Logo := "", Contributor := "",
    OperatingSystem := "Linux", Source := "Official", CustomTags := [] }

/-! ## Sample states -/

/-- A module named alpha. -/
def modA : Module := mkModule "a1" "alpha"

/-- A module named beta. -/
def modB : Module := mkModule "B2" "Beta"

/-- A template. -/
def tplT : Template := mkTemplate "t1" "Tee"

/-- The state after `AddModule(modA)`, `AddModule(modB)`, `AddTemplate(tplT)`
on a new store. -/
def sampleDB : DB :=
  (AddTemplate (AddModule (AddModule NewDB modA).db modB).db tplT).db

/-- The sample state after `Close()`. -/
def closedDB : DB := (Close sampleDB).db

/-- The state after `AddModule(modA)` twice on a new store. -/
def dupDB : DB := (AddModule (AddModule NewDB modA).db modA).db

/-- The state after one hundred calls `AddModule(modA)` on a new store: the
channel is full. -/
def fullDB : DB :=
  (runAdds NewDB (List.replicate 100 (AddCall.module modA))).getD NewDB

/-! ## Lemmas on the loops -/

theorem rangeFind_eq_none {α : Type} (hit : α → Bool) (xs : List α) (i : Nat) :
    rangeFind hit xs i = none ↔ ∀ x ∈ xs, hit x = false := by
  induction xs generalizing i with
  | nil => simp [rangeFind]
  | cons x xs ih =>
    unfold rangeFind
    by_cases h : hit x = true
    · simp [h]
    · simp [h, ih]

theorem rangeFind_eq_some {α : Type} (hit : α → Bool) (xs : List α) (i j : Nat) (x : α)
    (h : rangeFind hit xs i = some (j, x)) :
    ∃ k, j = i + k ∧ xs[k]? = some x ∧ hit x = true ∧
      ∀ k2 y, k2 < k → xs[k2]? = some y → hit y = false := by
  induction xs generalizing i with
  | nil => simp [rangeFind] at h
  | cons a xs ih =>
    unfold rangeFind at h
    by_cases ha : hit a = true
    · simp only [ha, if_true, Option.some.injEq, Prod.mk.injEq] at h
      obtain ⟨rfl, rfl⟩ := h
      exact ⟨0, rfl, by simp, ha, fun k2 y hk => absurd hk (Nat.not_lt_zero _)⟩
    · simp only [ha] at h
      obtain ⟨k, hj, hk, hx, hbefore⟩ := ih (i + 1) h
      refine ⟨k + 1, by omega, by simpa using hk, hx, ?_⟩
      intro k2 y hk2 hy
      cases k2 with
      | zero =>
        simp at hy
        subst hy
        simpa using ha
      | succ n =>
        exact hbefore n y (by omega) (by simpa using hy)

theorem rangeFind_isSome {α : Type} (hit : α → Bool) (xs : List α) (i : Nat) :
    (∃ x ∈ xs, hit x = true) → ∃ j x, rangeFind hit xs i = some (j, x) := by
  intro h
  cases hr : rangeFind hit xs i with
  | none =>
    obtain ⟨x, hx, hh⟩ := h
    have := (rangeFind_eq_none hit xs i).1 hr x hx
    simp [hh] at this
  | some p => exact ⟨p.1, p.2, rfl⟩

theorem swapRemove_append_last {α : Type} (ys : List α) (l : α) (k : Nat) :
    swapRemove (ys ++ [l]) k = if k < ys.length then ys.set k l else ys := by
  have hlast : (ys ++ [l]).getLast? = some l := by simp
  unfold swapRemove
  rw [hlast]
  by_cases hk : k < ys.length
  · simp [hk, List.set_append_left _ _ hk]
  · have : ys.length ≤ k := Nat.le_of_not_lt hk
    simp only [hk, if_false]
    rw [List.set_append_right _ _ this]
    cases hd : k - ys.length with
    | zero => simp
    | succ n => simp

theorem perm_cons_set {α : Type} (ys : List α) (l x : α) (k : Nat) (hx : ys[k]? = some x) :
    (ys ++ [l]).Perm (x :: ys.set k l) := by
  induction ys generalizing k with
  | nil => simp at hx
  | cons a ys ih =>
    cases k with
    | zero =>
      simp at hx
      subst hx
      simp only [List.set_cons_zero, List.cons_append]
      refine List.Perm.cons _ ?_
      exact List.perm_append_singleton l ys
    | succ n =>
      simp only [List.set_cons_succ, List.cons_append]
      have h1 := ih n (by simpa using hx)
      exact (List.Perm.cons a h1).trans (List.Perm.swap x a _)

theorem swapRemove_perm {α : Type} (xs : List α) (k : Nat) (x : α) (hx : xs[k]? = some x) :
    xs.Perm (x :: swapRemove xs k) := by
  rcases List.eq_nil_or_concat xs with rfl | ⟨ys, l, rfl⟩
  · simp at hx
  · rw [List.concat_eq_append] at hx ⊢
    rw [swapRemove_append_last]
    by_cases hk : k < ys.length
    · simp only [hk, if_true]
      apply perm_cons_set
      rw [List.getElem?_append_left hk] at hx
      exact hx
    · simp only [hk, if_false]
      have hlen : k < (ys ++ [l]).length := by
        rcases List.getElem?_eq_some.1 hx with ⟨h, _⟩
        exact h
      have hk2 : k = ys.length := by
        simp at hlen
        omega
      subst hk2
      simp at hx
      subst hx
      exact List.perm_append_singleton _ _

theorem swapRemove_removesFirst {α : Type} (hit : α → Bool) (xs : List α) (j : Nat) (x : α)
    (h : rangeFind hit xs 0 = some (j, x)) :
    RemovesFirst hit xs (swapRemove xs j) x ∧ (swapRemove xs j).length + 1 = xs.length ∧
      xs.Perm (x :: swapRemove xs j) := by
  obtain ⟨k, hj, hk, hx, hbefore⟩ := rangeFind_eq_some hit xs 0 j x h
  have hjk : j = k := by omega
  subst hjk
  have hperm := swapRemove_perm xs j x hk
  refine ⟨?_, ?_, hperm⟩
  · rcases List.eq_nil_or_concat xs with rfl | ⟨ys, l, rfl⟩
    · simp at hk
    · rw [List.concat_eq_append] at hk hbefore ⊢
      refine ⟨j, l, hk, hx, hbefore, by simp, ?_⟩
      simp [swapRemove]
  · have := hperm.length_eq
    simp at this
    omega

/-! ## Lemmas on `emit` -/

theorem emit_modules {α : Type} (s : DB) (e : UpdateEvent) (v : α) :
    (emit s e v).db.modules = s.modules := by
  unfold emit
  cases s.updates.trySend e <;> rfl

theorem emit_templates {α : Type} (s : DB) (e : UpdateEvent) (v : α) :
    (emit s e v).db.templates = s.templates := by
  unfold emit
  cases s.updates.trySend e <;> rfl

theorem emit_closed {α : Type} (s : DB) (e : UpdateEvent) (v : α) :
    (emit s e v).db.closed = s.closed := by
  unfold emit
  cases s.updates.trySend e <;> rfl

theorem emit_open {α : Type} (s : DB) (e : UpdateEvent) (v : α)
    (h : s.updates.closed = false) :
    (emit s e v).out = Outcome.returned v ∧
      (emit s e v).db.updates =
        if s.updates.buf.length < s.updates.cap
        then { s.updates with buf := s.updates.buf ++ [e] } else s.updates := by
  unfold emit Chan.trySend
  by_cases hroom : s.updates.buf.length < s.updates.cap <;> simp [h, hroom]

theorem emit_shut {α : Type} (s : DB) (e : UpdateEvent) (v : α)
    (h : s.updates.closed = true) :
    emit s e v = { db := s, out := Outcome.panicked sendOnClosed } := by
  unfold emit Chan.trySend
  simp [h]

/-! ## Lemmas on the deletions -/

theorem deleteModule_found (L : CaseLib) (s : DB) (id : String) (j : Nat) (m : Module)
    (h : rangeFind (fun m : Module => L.EqualFold m.ID id) s.modules 0 = some (j, m)) :
    DeleteModule L s id =
      emit { s with modules := swapRemove s.modules j }
        { Typ := "module_deleted", Data := EventData.module m } true := by
  unfold DeleteModule
  rw [h]

theorem deleteModule_absent (L : CaseLib) (s : DB) (id : String)
    (h : rangeFind (fun m : Module => L.EqualFold m.ID id) s.modules 0 = none) :
    DeleteModule L s id = { db := s, out := Outcome.returned false } := by
  unfold DeleteModule
  rw [h]

theorem deleteTemplate_found (L : CaseLib) (s : DB) (id : String) (j : Nat) (t : Template)
    (h : rangeFind (fun t : Template => L.EqualFold t.ID id) s.templates 0 = some (j, t)) :
    DeleteTemplate L s id =
      emit { s with templates := swapRemove s.templates j }
        { Typ := "template_deleted", Data := EventData.template t } true := by
  unfold DeleteTemplate
  rw [h]

theorem deleteTemplate_absent (L : CaseLib) (s : DB) (id : String)
    (h : rangeFind (fun t : Template => L.EqualFold t.ID id) s.templates 0 = none) :
    DeleteTemplate L s id = { db := s, out := Outcome.returned false } := by
  unfold DeleteTemplate
  rw [h]

/-! ## C1 -/

/-- C1 (as amended): for every store whose event stream has not been closed and
every id, if some module (resp. template) has an id equal to it under
`EqualFold`, then `DeleteModule` (resp. `DeleteTemplate`) returns true, the
new collection is the old one with the first matching position overwritten by
the old last element and the last slot dropped, its length is one less, the
old collection is a permutation of the removed entity followed by the new
collection, and the collection of the other kind is unchanged. -/
theorem delete_removes_first_match (L : CaseLib) (s : DB) (id : String)
    (hopen : s.updates.closed = false) :
    ((∃ m ∈ s.modules, L.EqualFold m.ID id = true) →
      (DeleteModule L s id).out = Outcome.returned true ∧
      (∃ m, RemovesFirst (fun m : Module => L.EqualFold m.ID id)
              s.modules (DeleteModule L s id).db.modules m ∧
            s.modules.Perm (m :: (DeleteModule L s id).db.modules)) ∧
      (DeleteModule L s id).db.modules.length + 1 = s.modules.length ∧
      (DeleteModule L s id).db.templates = s.templates) ∧
    ((∃ t ∈ s.templates, L.EqualFold t.ID id = true) →
      (DeleteTemplate L s id).out = Outcome.returned true ∧
      (∃ t, RemovesFirst (fun t : Template => L.EqualFold t.ID id)
              s.templates (DeleteTemplate L s id).db.templates t ∧
            s.templates.Perm (t :: (DeleteTemplate L s id).db.templates)) ∧
      (DeleteTemplate L s id).db.templates.length + 1 = s.templates.length ∧
      (DeleteTemplate L s id).db.modules = s.modules) := by
  constructor
  · intro hex
    obtain ⟨j, m, hfind⟩ :=
      rangeFind_isSome (fun m : Module => L.EqualFold m.ID id) s.modules 0 hex
    obtain ⟨hrem, hlen, hperm⟩ := swapRemove_removesFirst _ _ _ _ hfind
    rw [deleteModule_found L s id j m hfind]
    refine ⟨(emit_open { s with modules := swapRemove s.modules j } _ _ hopen).1,
      ⟨m, ?_, ?_⟩, ?_, ?_⟩
    · rw [emit_modules]; exact hrem
    · rw [emit_modules]; exact hperm
    · rw [emit_modules]; exact hlen
    · rw [emit_templates]
  · intro hex
    obtain ⟨j, t, hfind⟩ :=
      rangeFind_isSome (fun t : Template => L.EqualFold t.ID id) s.templates 0 hex
    obtain ⟨hrem, hlen, hperm⟩ := swapRemove_removesFirst _ _ _ _ hfind
    rw [deleteTemplate_found L s id j t hfind]
    refine ⟨(emit_open { s with templates := swapRemove s.templates j } _ _ hopen).1,
      ⟨t, ?_, ?_⟩, ?_, ?_⟩
    · rw [emit_templates]; exact hrem
    · rw [emit_templates]; exact hperm
    · rw [emit_templates]; exact hlen
    · rw [emit_modules]

/-- C1 as stated fails on a store on which `Close` was called: a module with
the id is present, yet `DeleteModule` does not return true, it panics on the
send to the closed channel. -/
theorem delete_on_closed_store_panics :
    (∃ m ∈ closedDB.modules, asciiCase.EqualFold m.ID "a1" = true) ∧
      (DeleteModule asciiCase closedDB "a1").out ≠ Outcome.returned true ∧
      (DeleteModule asciiCase closedDB "a1").out = Outcome.panicked sendOnClosed :=
  ⟨⟨modA, by decide, by decide⟩, by decide, by decide⟩

/-- Witness of C1 (as amended) on the sample store, for a module id and for a
template id given in another letter case. -/
theorem delete_removes_first_match_witness :
    sampleDB.updates.closed = false ∧
      (DeleteModule asciiCase sampleDB "A1").out = Outcome.returned true ∧
      (DeleteModule asciiCase sampleDB "A1").db.modules.length + 1 = sampleDB.modules.length ∧
      (DeleteModule asciiCase sampleDB "A1").db.templates = sampleDB.templates :=
  ⟨by decide,
    ((delete_removes_first_match asciiCase sampleDB "A1" (by decide)).1
      ⟨modA, by decide, by decide⟩).1,
    ((delete_removes_first_match asciiCase sampleDB "A1" (by decide)).1
      ⟨modA, by decide, by decide⟩).2.2.1,
    ((delete_removes_first_match asciiCase sampleDB "A1" (by decide)).1
      ⟨modA, by decide, by decide⟩).2.2.2⟩

/-! ## C2 -/

theorem emit_out_ne_false (s : DB) (e : UpdateEvent) :
    (emit s e true).out ≠ Outcome.returned false := by
  unfold emit
  cases s.updates.trySend e <;> simp

/-- C2: for every store state and every id, `DeleteModule` (resp.
`DeleteTemplate`) returns false exactly when no module (resp. template) has an
id equal to the given one under `EqualFold`, and in that case the state after
the call is the state before it: both collections, the channel with its
buffered events, and the flag `closed`. -/
theorem delete_false_iff_absent (L : CaseLib) (s : DB) (id : String) :
    ((DeleteModule L s id).out = Outcome.returned false ↔
        ∀ m ∈ s.modules, L.EqualFold m.ID id = false) ∧
      ((∀ m ∈ s.modules, L.EqualFold m.ID id = false) → (DeleteModule L s id).db = s) ∧
      ((DeleteTemplate L s id).out = Outcome.returned false ↔
        ∀ t ∈ s.templates, L.EqualFold t.ID id = false) ∧
      ((∀ t ∈ s.templates, L.EqualFold t.ID id = false) → (DeleteTemplate L s id).db = s) := by
  have hm : ∀ h : (∀ m ∈ s.modules, L.EqualFold m.ID id = false),
      DeleteModule L s id = { db := s, out := Outcome.returned false } := fun h =>
    deleteModule_absent L s id
      ((rangeFind_eq_none (fun m : Module => L.EqualFold m.ID id) s.modules 0).2 h)
  have ht : ∀ h : (∀ t ∈ s.templates, L.EqualFold t.ID id = false),
      DeleteTemplate L s id = { db := s, out := Outcome.returned false } := fun h =>
    deleteTemplate_absent L s id
      ((rangeFind_eq_none (fun t : Template => L.EqualFold t.ID id) s.templates 0).2 h)
  refine ⟨⟨?_, fun h => by rw [hm h]⟩, fun h => by rw [hm h], ⟨?_, fun h => by rw [ht h]⟩,
    fun h => by rw [ht h]⟩
  · intro hout
    cases hfind : rangeFind (fun m : Module => L.EqualFold m.ID id) s.modules 0 with
    | none => exact (rangeFind_eq_none _ _ _).1 hfind
    | some p =>
      obtain ⟨j, m⟩ := p
      rw [deleteModule_found L s id j m hfind] at hout
      exact absurd hout (emit_out_ne_false _ _)
  · intro hout
    cases hfind : rangeFind (fun t : Template => L.EqualFold t.ID id) s.templates 0 with
    | none => exact (rangeFind_eq_none _ _ _).1 hfind
    | some p =>
      obtain ⟨j, t⟩ := p
      rw [deleteTemplate_found L s id j t hfind] at hout
      exact absurd hout (emit_out_ne_false _ _)

/-! ## C3 -/

theorem addCall_open (s : DB) (c : AddCall) (hopen : s.updates.closed = false) :
    (addCall s c).out = Outcome.returned () ∧ (addCall s c).db.updates.closed = false ∧
      (addCall s c).db.modules = s.modules ++ addedModules [c] ∧
      (addCall s c).db.templates = s.templates ++ addedTemplates [c] := by
  cases c with
  | module m =>
    have h := emit_open { s with modules := s.modules ++ [m] }
      { Typ := "module_added", Data := EventData.module m } () hopen
    refine ⟨h.1, ?_, ?_, ?_⟩
    · simp only [addCall, AddModule]
      rw [h.2]
      split <;> exact hopen
    · simp [addCall, AddModule, emit_modules, addedModules]
    · simp [addCall, AddModule, emit_templates, addedTemplates]
  | template t =>
    have h := emit_open { s with templates := s.templates ++ [t] }
      { Typ := "template_added", Data := EventData.template t } () hopen
    refine ⟨h.1, ?_, ?_, ?_⟩
    · simp only [addCall, AddTemplate]
      rw [h.2]
      split <;> exact hopen
    · simp [addCall, AddTemplate, emit_modules, addedModules]
    · simp [addCall, AddTemplate, emit_templates, addedTemplates]

theorem addedModules_cons (c : AddCall) (cs : List AddCall) :
    addedModules (c :: cs) = addedModules [c] ++ addedModules cs := by
  cases c <;> simp [addedModules]

theorem addedTemplates_cons (c : AddCall) (cs : List AddCall) :
    addedTemplates (c :: cs) = addedTemplates [c] ++ addedTemplates cs := by
  cases c <;> simp [addedTemplates]

theorem runAdds_open (s : DB) (cs : List AddCall) (hopen : s.updates.closed = false) :
    ∃ s2, runAdds s cs = some s2 ∧ s2.modules = s.modules ++ addedModules cs ∧
      s2.templates = s.templates ++ addedTemplates cs := by
  induction cs generalizing s with
  | nil => exact ⟨s, rfl, by simp [addedModules], by simp [addedTemplates]⟩
  | cons c cs ih =>
    obtain ⟨hout, hop, hmod, htpl⟩ := addCall_open s c hopen
    obtain ⟨s2, hrun, hm2, ht2⟩ := ih (addCall s c).db hop
    refine ⟨s2, ?_, ?_, ?_⟩
    · simp only [runAdds, hout]
      exact hrun
    · rw [hm2, hmod, addedModules_cons c cs, List.append_assoc]
    · rw [ht2, htpl, addedTemplates_cons c cs, List.append_assoc]

/-- C3: starting from `NewDB()`, every finite sequence of `AddModule` and
`AddTemplate` calls runs without a panic, and afterwards `GetModules("")`
returns exactly the modules that were added and `GetTemplates("")` exactly the
templates that were added, as lists in order of addition; hence as multisets,
with no loss, no duplication and no entity of the other kind. -/
theorem adds_then_list_all (L : CaseLib) (cs : List AddCall) :
    ∃ s, runAdds NewDB cs = some s ∧
      GetModules L s "" = addedModules cs ∧ GetTemplates L s "" = addedTemplates cs ∧
      (GetModules L s "").Perm (addedModules cs) ∧
      (GetTemplates L s "").Perm (addedTemplates cs) := by
  obtain ⟨s, hrun, hm, ht⟩ := runAdds_open NewDB cs rfl
  have hm2 : GetModules L s "" = addedModules cs := by
    simp [GetModules, hm, NewDB]
  have ht2 : GetTemplates L s "" = addedTemplates cs := by
    simp [GetTemplates, ht, NewDB]
  exact ⟨s, hrun, hm2, ht2, by rw [hm2], by rw [ht2]⟩

/-! ## C4 -/

theorem foldl_filter_acc {α : Type} (keep : α → Bool) (xs acc : List α) :
    xs.foldl (fun filtered x => if keep x then filtered ++ [x] else filtered) acc =
      acc ++ xs.filter keep := by
  induction xs generalizing acc with
  | nil => simp
  | cons x xs ih =>
    simp only [List.foldl_cons]
    rw [ih]
    by_cases h : keep x = true
    · simp [h, List.filter_cons]
    · simp [h, List.filter_cons]

theorem filterLoop_eq_filter {α : Type} (keep : α → Bool) (xs : List α) :
    filterLoop keep xs = xs.filter keep := by
  unfold filterLoop
  rw [foldl_filter_acc]
  simp

theorem contains_iff_infixOf (s substr : String) :
    Contains s substr = true ↔ substr.data <:+: s.data := by
  unfold Contains
  rw [List.any_eq_true, List.infix_iff_prefix_suffix]
  constructor
  · rintro ⟨t, ht, hp⟩
    exact ⟨t, List.isPrefixOf_iff_prefix.1 hp, (List.mem_tails _ _).1 ht⟩
  · rintro ⟨t, hp, ht⟩
    exact ⟨t, (List.mem_tails _ _).2 ht, List.isPrefixOf_iff_prefix.2 hp⟩

theorem contains_eq_decide (s substr : String) :
    Contains s substr = decide (substr.data <:+: s.data) := by
  rw [Bool.eq_iff_iff, contains_iff_infixOf]
  simp

theorem toLower_empty (L : CaseLib) : ToLower L "" = "" := rfl

theorem contains_empty (s : String) : Contains s "" = true := by
  rw [contains_iff_infixOf]
  exact List.nil_infix

/-- C4: for every store state and every filter `f`, empty or not,
`GetModules(f)` (resp. `GetTemplates(f)`) is the sub-list, in collection
order, of the entities whose lower-cased name has the lower-cased `f` as a
contiguous sub-sequence; the empty filter returns the whole collection, which
is also what the filtering loop computes for the empty filter. -/
theorem list_returns_name_matches (L : CaseLib) (s : DB) (f : String) :
    GetModules L s f =
        s.modules.filter (fun m => decide ((ToLower L f).data <:+: (ToLower L m.Name).data)) ∧
      GetTemplates L s f =
        s.templates.filter (fun t => decide ((ToLower L f).data <:+: (ToLower L t.Name).data)) ∧
      GetModules L s "" = s.modules ∧ GetTemplates L s "" = s.templates ∧
      GetModules L s "" =
        filterLoop (fun m => Contains (ToLower L m.Name) (ToLower L "")) s.modules ∧
      GetTemplates L s "" =
        filterLoop (fun t => Contains (ToLower L t.Name) (ToLower L "")) s.templates := by
  have hall : ∀ {α : Type} (name : α → String) (xs : List α),
      filterLoop (fun x => Contains (ToLower L (name x)) (ToLower L "")) xs = xs := by
    intro α name xs
    rw [filterLoop_eq_filter, toLower_empty]
    simp [contains_empty]
  have hloop : ∀ {α : Type} (name : α → String) (xs : List α),
      filterLoop (fun x => Contains (ToLower L (name x)) (ToLower L f)) xs =
        xs.filter (fun x => decide ((ToLower L f).data <:+: (ToLower L (name x)).data)) := by
    intro α name xs
    rw [filterLoop_eq_filter]
    congr 1
    funext x
    exact contains_eq_decide _ _
  have hm0 : GetModules L s "" = s.modules := by simp [GetModules]
  have ht0 : GetTemplates L s "" = s.templates := by simp [GetTemplates]
  refine ⟨?_, ?_, hm0, ht0, ?_, ?_⟩
  · by_cases hf : f = ""
    · subst hf
      rw [hm0, ← hloop (fun m : Module => m.Name), hall (fun m : Module => m.Name)]
    · simp only [GetModules, hf, if_false]
      exact hloop (fun m : Module => m.Name) s.modules
  · by_cases hf : f = ""
    · subst hf
      rw [ht0, ← hloop (fun t : Template => t.Name), hall (fun t : Template => t.Name)]
    · simp only [GetTemplates, hf, if_false]
      exact hloop (fun t : Template => t.Name) s.templates
  · rw [hm0, hall (fun m : Module => m.Name)]
  · rw [ht0, hall (fun t : Template => t.Name)]

/-! ## C5 -/

theorem foldl_suggest_acc {α : Type} (L : CaseLib) (name : α → String) (pre : String)
    (xs : List α) (acc : List String) :
    xs.foldl
        (fun suggestions x =>
          if HasPrefix (ToLower L (name x)) pre then suggestions ++ [name x] else suggestions)
        acc =
      acc ++ (xs.filter (fun x => HasPrefix (ToLower L (name x)) pre)).map name := by
  induction xs generalizing acc with
  | nil => simp
  | cons x xs ih =>
    simp only [List.foldl_cons]
    rw [ih]
    by_cases h : HasPrefix (ToLower L (name x)) pre = true
    · simp [h, List.filter_cons]
    · simp [h, List.filter_cons]

theorem hasPrefix_eq_decide (s pre : String) :
    HasPrefix s pre = decide (pre.data <+: s.data) := by
  rw [Bool.eq_iff_iff]
  unfold HasPrefix
  rw [List.isPrefixOf_iff_prefix]
  simp

theorem suggestLoop_eq {α : Type} (L : CaseLib) (name : α → String) (pre : String)
    (xs : List α) :
    suggestLoop L name pre xs =
      (xs.filter (fun x => decide (pre.data <+: (ToLower L (name x)).data))).map name := by
  unfold suggestLoop
  rw [foldl_suggest_acc]
  simp only [List.nil_append]
  congr 2
  funext x
  exact hasPrefix_eq_decide _ _

/-- C5: for every store state and every prefix `p`, `GetModuleSuggestions(p)`
(resp. `GetTemplateSuggestions(p)`) is the list of names, in collection order
and one per entity, of the entities whose lower-cased name starts with the
lower-cased `p`; every returned name matches, and the empty prefix returns the
name of every entity. -/
theorem suggestions_are_prefix_matches (L : CaseLib) (s : DB) (p : String) :
    GetModuleSuggestions L s p =
        (s.modules.filter
          (fun m => decide ((ToLower L p).data <+: (ToLower L m.Name).data))).map
          (fun m => m.Name) ∧
      GetTemplateSuggestions L s p =
        (s.templates.filter
          (fun t => decide ((ToLower L p).data <+: (ToLower L t.Name).data))).map
          (fun t => t.Name) ∧
      (∀ n ∈ GetModuleSuggestions L s p, (ToLower L p).data <+: (ToLower L n).data) ∧
      (∀ n ∈ GetTemplateSuggestions L s p, (ToLower L p).data <+: (ToLower L n).data) ∧
      GetModuleSuggestions L s "" = s.modules.map (fun m => m.Name) ∧
      GetTemplateSuggestions L s "" = s.templates.map (fun t => t.Name) := by
  have hm : ∀ q, GetModuleSuggestions L s q =
      (s.modules.filter
        (fun m => decide ((ToLower L q).data <+: (ToLower L m.Name).data))).map
        (fun m => m.Name) := fun q => suggestLoop_eq L _ _ _
  have ht : ∀ q, GetTemplateSuggestions L s q =
      (s.templates.filter
        (fun t => decide ((ToLower L q).data <+: (ToLower L t.Name).data))).map
        (fun t => t.Name) := fun q => suggestLoop_eq L _ _ _
  refine ⟨hm p, ht p, ?_, ?_, ?_, ?_⟩
  · intro n hn
    rw [hm p] at hn
    obtain ⟨m, hmem, rfl⟩ := List.mem_map.1 hn
    simpa using (List.mem_filter.1 hmem).2
  · intro n hn
    rw [ht p] at hn
    obtain ⟨t, hmem, rfl⟩ := List.mem_map.1 hn
    simpa using (List.mem_filter.1 hmem).2
  · rw [hm "", toLower_empty]
    simp
  · rw [ht "", toLower_empty]
    simp

/-! ## The invariant -/

theorem inv_NewDB : Inv NewDB := ⟨rfl, by decide, rfl⟩

theorem trySend_some_inv (ch ch2 : Chan) (e : UpdateEvent) (h : ch.trySend e = some ch2)
    (hcap : ch.cap = 100) (hlen : ch.buf.length ≤ 100) :
    ch2.cap = 100 ∧ ch2.buf.length ≤ 100 ∧ ch2.closed = ch.closed := by
  unfold Chan.trySend at h
  by_cases hc : ch.closed = true
  · simp [hc] at h
  · have hc2 : ch.closed = false := by simpa using hc
    by_cases hroom : ch.buf.length < ch.cap
    · rw [if_neg hc, if_pos hroom] at h
      cases h
      refine ⟨hcap, ?_, rfl⟩
      simp only [List.length_append, List.length_singleton]
      omega
    · rw [if_neg hc, if_neg hroom] at h
      cases h
      exact ⟨hcap, hlen, rfl⟩

theorem emit_inv {α : Type} (s : DB) (e : UpdateEvent) (v : α) (h : Inv s) :
    Inv (emit s e v).db := by
  unfold emit
  cases hsend : s.updates.trySend e with
  | none => exact h
  | some ch =>
    obtain ⟨h1, h2, h3⟩ := trySend_some_inv s.updates ch e hsend h.1 h.2.1
    exact ⟨h1, h2, h3.trans h.2.2⟩

theorem close_inv (s : DB) (h : Inv s) : Inv (Close s).db := by
  unfold Close
  by_cases hc : s.closed = true
  · simp only [hc, if_true]
    exact h
  · have hch : s.updates.closed = false := by
      rw [h.2.2]
      simpa using hc
    simp only [hc, Bool.false_eq_true, if_false, Chan.close, hch]
    exact ⟨h.1, h.2.1, rfl⟩

theorem step_inv (L : CaseLib) (s : DB) (op : Op) (h : Inv s) : Inv (step L s op) := by
  cases op with
  | addModule m => exact emit_inv { s with modules := s.modules ++ [m] } _ _ h
  | addTemplate t => exact emit_inv { s with templates := s.templates ++ [t] } _ _ h
  | deleteModule id =>
    simp only [step, DeleteModule]
    split
    · exact emit_inv { s with modules := swapRemove s.modules _ } _ _ h
    · exact h
  | deleteTemplate id =>
    simp only [step, DeleteTemplate]
    split
    · exact emit_inv { s with templates := swapRemove s.templates _ } _ _ h
    · exact h
  | close => exact close_inv s h

theorem reachable_inv (L : CaseLib) (s : DB) (h : Reachable L s) : Inv s := by
  induction h with
  | new => exact inv_NewDB
  | call s op _ ih => exact step_inv L s op ih

theorem emit_buf {α : Type} (s : DB) (e : UpdateEvent) (v : α) (h : Inv s)
    (hopen : s.closed = false) :
    (emit s e v).out = Outcome.returned v ∧
      (emit s e v).db.updates.buf =
        (if s.updates.buf.length < 100 then s.updates.buf ++ [e] else s.updates.buf) ∧
      (emit s e v).db.updates.buf.length ≤ 100 := by
  have hch : s.updates.closed = false := h.2.2.trans hopen
  obtain ⟨hout, hup⟩ := emit_open s e v hch
  refine ⟨hout, ?_, (emit_inv s e v h).2.1⟩
  rw [hup, h.1]
  split <;> rfl

/-! ## C6 -/

/-- C6: on every open store (built from `NewDB()`, so with a channel of
capacity 100), `AddModule`, `AddTemplate` and every `DeleteModule` or
`DeleteTemplate` that returns true mutate the collection in the same way
whether or not there is room in the channel; when fewer than 100 events are
buffered exactly one event is appended at the tail of the queue, of type
`module_added`, `template_added`, `module_deleted` or `template_deleted` and
carrying the added entity, resp. the entity removed from the first matching
position; when 100 events are buffered the queue is left as it is. In both
cases at most 100 events are buffered afterwards. -/
theorem mutation_enqueues_one_event (L : CaseLib) (s : DB) (hinv : Inv s)
    (hopen : s.closed = false) :
    (∀ m : Module,
      (AddModule s m).out = Outcome.returned () ∧
      (AddModule s m).db.modules = s.modules ++ [m] ∧
      (AddModule s m).db.updates.buf =
        (if s.updates.buf.length < 100 then
          s.updates.buf ++ [{ Typ := "module_added", Data := EventData.module m }]
        else s.updates.buf) ∧
      (AddModule s m).db.updates.buf.length ≤ 100) ∧
    (∀ t : Template,
      (AddTemplate s t).out = Outcome.returned () ∧
      (AddTemplate s t).db.templates = s.templates ++ [t] ∧
      (AddTemplate s t).db.updates.buf =
        (if s.updates.buf.length < 100 then
          s.updates.buf ++ [{ Typ := "template_added", Data := EventData.template t }]
        else s.updates.buf) ∧
      (AddTemplate s t).db.updates.buf.length ≤ 100) ∧
    (∀ id : String, (DeleteModule L s id).out = Outcome.returned true →
      ∃ m, RemovesFirst (fun m : Module => L.EqualFold m.ID id)
          s.modules (DeleteModule L s id).db.modules m ∧
        (DeleteModule L s id).db.updates.buf =
          (if s.updates.buf.length < 100 then
            s.updates.buf ++ [{ Typ := "module_deleted", Data := EventData.module m }]
          else s.updates.buf) ∧
        (DeleteModule L s id).db.updates.buf.length ≤ 100) ∧
    (∀ id : String, (DeleteTemplate L s id).out = Outcome.returned true →
      ∃ t, RemovesFirst (fun t : Template => L.EqualFold t.ID id)
          s.templates (DeleteTemplate L s id).db.templates t ∧
        (DeleteTemplate L s id).db.updates.buf =
          (if s.updates.buf.length < 100 then
            s.updates.buf ++ [{ Typ := "template_deleted", Data := EventData.template t }]
          else s.updates.buf) ∧
        (DeleteTemplate L s id).db.updates.buf.length ≤ 100) := by
  refine ⟨?_, ?_, ?_, ?_⟩
  · intro m
    obtain ⟨h1, h2, h3⟩ := emit_buf { s with modules := s.modules ++ [m] }
      { Typ := "module_added", Data := EventData.module m } () hinv hopen
    exact ⟨h1, emit_modules _ _ _, h2, h3⟩
  · intro t
    obtain ⟨h1, h2, h3⟩ := emit_buf { s with templates := s.templates ++ [t] }
      { Typ := "template_added", Data := EventData.template t } () hinv hopen
    exact ⟨h1, emit_templates _ _ _, h2, h3⟩
  · intro id hout
    cases hfind : rangeFind (fun m : Module => L.EqualFold m.ID id) s.modules 0 with
    | none =>
      rw [deleteModule_absent L s id hfind] at hout
      simp at hout
    | some p =>
      obtain ⟨j, m⟩ := p
      obtain ⟨hrem, _, _⟩ := swapRemove_removesFirst _ _ _ _ hfind
      obtain ⟨_, h2, h3⟩ := emit_buf { s with modules := swapRemove s.modules j }
        { Typ := "module_deleted", Data := EventData.module m } true hinv hopen
      rw [deleteModule_found L s id j m hfind]
      refine ⟨m, ?_, h2, h3⟩
      rw [emit_modules]
      exact hrem
  · intro id hout
    cases hfind : rangeFind (fun t : Template => L.EqualFold t.ID id) s.templates 0 with
    | none =>
      rw [deleteTemplate_absent L s id hfind] at hout
      simp at hout
    | some p =>
      obtain ⟨j, t⟩ := p
      obtain ⟨hrem, _, _⟩ := swapRemove_removesFirst _ _ _ _ hfind
      obtain ⟨_, h2, h3⟩ := emit_buf { s with templates := swapRemove s.templates j }
        { Typ := "template_deleted", Data := EventData.template t } true hinv hopen
      rw [deleteTemplate_found L s id j t hfind]
      refine ⟨t, ?_, h2, h3⟩
      rw [emit_templates]
      exact hrem

/-- Witness of C6 on the sample store, which has room in its channel, and on a
store whose channel holds 100 events. -/
theorem mutation_enqueues_one_event_witness :
    (Inv sampleDB ∧ sampleDB.closed = false ∧ sampleDB.updates.buf.length = 3 ∧
      (AddModule sampleDB modB).out = Outcome.returned () ∧
      (AddModule sampleDB modB).db.updates.buf.length ≤ 100) ∧
    (Inv fullDB ∧ fullDB.closed = false ∧ fullDB.updates.buf.length = 100 ∧
      (AddModule fullDB modB).db.modules = fullDB.modules ++ [modB] ∧
      (AddModule fullDB modB).db.updates.buf.length ≤ 100) :=
  have h1 : Inv sampleDB := ⟨by decide, by decide, by decide⟩
  have h2 : Inv fullDB := ⟨by decide, by decide, by decide⟩
  ⟨⟨h1, by decide, by decide,
      ((mutation_enqueues_one_event asciiCase sampleDB h1 (by decide)).1 modB).1,
      ((mutation_enqueues_one_event asciiCase sampleDB h1 (by decide)).1 modB).2.2.2⟩,
    ⟨h2, by decide, by decide,
      ((mutation_enqueues_one_event asciiCase fullDB h2 (by decide)).1 modB).2.1,
      ((mutation_enqueues_one_event asciiCase fullDB h2 (by decide)).1 modB).2.2.2⟩⟩

/-! ## C7 -/

theorem close_collections (s : DB) :
    (Close s).db.modules = s.modules ∧ (Close s).db.templates = s.templates := by
  unfold Close
  by_cases hc : s.closed = true
  · simp [hc]
  · simp only [hc, Bool.false_eq_true, if_false]
    cases s.updates.close <;> exact ⟨rfl, rfl⟩

/-- C7 as stated fails: on the sample store after `Close()`, `AddModule`
appends the module and then panics on the send to the closed channel. -/
theorem add_after_close_panics :
    closedDB.closed = true ∧
      (AddModule closedDB modB).out = Outcome.panicked sendOnClosed ∧
      (AddModule closedDB modB).db.modules = [modA, modB, modB] :=
  ⟨by decide, by decide, by decide⟩

/-- C7 (as amended): on every store on which `Close` has been called,
`AddModule` and `AddTemplate` append the entity and then panic on the send to
the closed channel, and so do `DeleteModule` and `DeleteTemplate` when the id
is present, after removing the entity; `DeleteModule` and `DeleteTemplate`
with an absent id return false, `Close` returns nil and `Updates` returns the
closed channel, all without changing the state; and for every store the reads
return after `Close` what they returned before it. -/
theorem calls_after_close (L : CaseLib) (s : DB) (hinv : Inv s) (hclosed : s.closed = true) :
    (∀ m : Module, AddModule s m =
      { db := { s with modules := s.modules ++ [m] }, out := Outcome.panicked sendOnClosed }) ∧
    (∀ t : Template, AddTemplate s t =
      { db := { s with templates := s.templates ++ [t] },
        out := Outcome.panicked sendOnClosed }) ∧
    (∀ id : String, (∃ m ∈ s.modules, L.EqualFold m.ID id = true) →
      (DeleteModule L s id).out = Outcome.panicked sendOnClosed ∧
      (DeleteModule L s id).db.modules.length + 1 = s.modules.length) ∧
    (∀ id : String, (∃ t ∈ s.templates, L.EqualFold t.ID id = true) →
      (DeleteTemplate L s id).out = Outcome.panicked sendOnClosed ∧
      (DeleteTemplate L s id).db.templates.length + 1 = s.templates.length) ∧
    (∀ id : String, (∀ m ∈ s.modules, L.EqualFold m.ID id = false) →
      DeleteModule L s id = { db := s, out := Outcome.returned false }) ∧
    (∀ id : String, (∀ t ∈ s.templates, L.EqualFold t.ID id = false) →
      DeleteTemplate L s id = { db := s, out := Outcome.returned false }) ∧
    Close s = { db := s, out := Outcome.returned () } ∧
    (Updates s).closed = true ∧
    (∀ (s0 : DB) (f : String),
      GetModules L (Close s0).db f = GetModules L s0 f ∧
      GetTemplates L (Close s0).db f = GetTemplates L s0 f ∧
      GetModuleSuggestions L (Close s0).db f = GetModuleSuggestions L s0 f ∧
      GetTemplateSuggestions L (Close s0).db f = GetTemplateSuggestions L s0 f) := by
  have hch : s.updates.closed = true := hinv.2.2.trans hclosed
  refine ⟨?_, ?_, ?_, ?_, ?_, ?_, ?_, hch, ?_⟩
  · intro m
    exact emit_shut { s with modules := s.modules ++ [m] } _ _ hch
  · intro t
    exact emit_shut { s with templates := s.templates ++ [t] } _ _ hch
  · intro id hex
    obtain ⟨j, m, hfind⟩ :=
      rangeFind_isSome (fun m : Module => L.EqualFold m.ID id) s.modules 0 hex
    obtain ⟨_, hlen, _⟩ := swapRemove_removesFirst _ _ _ _ hfind
    rw [deleteModule_found L s id j m hfind,
      emit_shut { s with modules := swapRemove s.modules j } _ _ hch]
    exact ⟨rfl, hlen⟩
  · intro id hex
    obtain ⟨j, t, hfind⟩ :=
      rangeFind_isSome (fun t : Template => L.EqualFold t.ID id) s.templates 0 hex
    obtain ⟨_, hlen, _⟩ := swapRemove_removesFirst _ _ _ _ hfind
    rw [deleteTemplate_found L s id j t hfind,
      emit_shut { s with templates := swapRemove s.templates j } _ _ hch]
    exact ⟨rfl, hlen⟩
  · intro id h
    exact deleteModule_absent L s id ((rangeFind_eq_none _ _ _).2 h)
  · intro id h
    exact deleteTemplate_absent L s id ((rangeFind_eq_none _ _ _).2 h)
  · simp [Close, hclosed]
  · intro s0 f
    obtain ⟨hm, ht⟩ := close_collections s0
    simp [GetModules, GetTemplates, GetModuleSuggestions, GetTemplateSuggestions, hm, ht]

/-- Witness of C7 (as amended) on the sample store after `Close()`. -/
theorem calls_after_close_witness :
    Inv closedDB ∧ closedDB.closed = true ∧
      (DeleteModule asciiCase closedDB "zz").out = Outcome.returned false ∧
      (DeleteModule asciiCase closedDB "a1").out = Outcome.panicked sendOnClosed ∧
      (Close closedDB).out = Outcome.returned () :=
  have h := calls_after_close asciiCase closedDB ⟨by decide, by decide, by decide⟩ (by decide)
  ⟨⟨by decide, by decide, by decide⟩, by decide,
    by rw [h.2.2.2.2.1 "zz" (by decide)],
    (h.2.2.1 "a1" ⟨modA, by decide, by decide⟩).1,
    by rw [h.2.2.2.2.2.2.1]⟩

/-! ## C8 -/

theorem recvMany_eq_take (n : Nat) (ch : Chan) : recvMany n ch = ch.buf.take n := by
  induction n generalizing ch with
  | zero => simp [recvMany]
  | succ n ih =>
    obtain ⟨buf, cap, closed⟩ := ch
    cases buf with
    | nil => cases closed <;> simp [recvMany, Chan.recv]
    | cons e rest => simp [recvMany, Chan.recv, ih]

theorem emit_lateSubscriber {α : Type} (s0 s : DB) (e : UpdateEvent) (v : α) (hinv : Inv s)
    (hopen : s.closed = false) (hup : s.updates = s0.updates) :
    LateSubscriber s0 (emit s e v).db e := by
  have hch : s.updates.closed = false := hinv.2.2.trans hopen
  obtain ⟨_, hnew⟩ := emit_open s e v hch
  rw [hinv.1] at hnew
  unfold LateSubscriber Updates
  rw [← hup]
  constructor
  · intro hroom
    rw [recvMany_eq_take, hnew, if_pos hroom]
    simp
  · intro hfull
    rw [hnew, if_neg (by omega)]

/-- C8 as stated fails: a subscriber that calls `Updates()` only after
`AddModule` has completed on a new store receives the event of that call on
its first receive. -/
theorem late_subscriber_receives_event :
    (Updates (AddModule NewDB modA).db).recv =
      Recv.value { Typ := "module_added", Data := EventData.module modA } (makeChan 100) := by
  decide

/-- C8 (as amended): on every open store, a subscriber that calls `Updates()`
only after a mutation has completed obtains the single buffered channel of the
store: if fewer than 100 events were buffered when the mutation emitted its
event, its successive receives deliver the events buffered before and then
that event; if 100 events were buffered, the event was dropped and the stream
is the one it would have obtained before the mutation. This holds for
`AddModule`, `AddTemplate` and every `DeleteModule` or `DeleteTemplate` that
returns true, whose event carries the entity removed. -/
theorem late_subscriber_sees_buffered_events (L : CaseLib) (s : DB) (hinv : Inv s)
    (hopen : s.closed = false) :
    (∀ m : Module, LateSubscriber s (AddModule s m).db
      { Typ := "module_added", Data := EventData.module m }) ∧
    (∀ t : Template, LateSubscriber s (AddTemplate s t).db
      { Typ := "template_added", Data := EventData.template t }) ∧
    (∀ id : String, (DeleteModule L s id).out = Outcome.returned true →
      ∃ m, RemovesFirst (fun m : Module => L.EqualFold m.ID id)
          s.modules (DeleteModule L s id).db.modules m ∧
        LateSubscriber s (DeleteModule L s id).db
          { Typ := "module_deleted", Data := EventData.module m }) ∧
    (∀ id : String, (DeleteTemplate L s id).out = Outcome.returned true →
      ∃ t, RemovesFirst (fun t : Template => L.EqualFold t.ID id)
          s.templates (DeleteTemplate L s id).db.templates t ∧
        LateSubscriber s (DeleteTemplate L s id).db
          { Typ := "template_deleted", Data := EventData.template t }) := by
  refine ⟨?_, ?_, ?_, ?_⟩
  · intro m
    exact emit_lateSubscriber s { s with modules := s.modules ++ [m] } _ () hinv hopen rfl
  · intro t
    exact emit_lateSubscriber s { s with templates := s.templates ++ [t] } _ () hinv hopen rfl
  · intro id hout
    cases hfind : rangeFind (fun m : Module => L.EqualFold m.ID id) s.modules 0 with
    | none =>
      rw [deleteModule_absent L s id hfind] at hout
      simp at hout
    | some p =>
      obtain ⟨j, m⟩ := p
      obtain ⟨hrem, _, _⟩ := swapRemove_removesFirst _ _ _ _ hfind
      rw [deleteModule_found L s id j m hfind]
      refine ⟨m, ?_, ?_⟩
      · rw [emit_modules]
        exact hrem
      · exact emit_lateSubscriber s { s with modules := swapRemove s.modules j } _ true
          hinv hopen rfl
  · intro id hout
    cases hfind : rangeFind (fun t : Template => L.EqualFold t.ID id) s.templates 0 with
    | none =>
      rw [deleteTemplate_absent L s id hfind] at hout
      simp at hout
    | some p =>
      obtain ⟨j, t⟩ := p
      obtain ⟨hrem, _, _⟩ := swapRemove_removesFirst _ _ _ _ hfind
      rw [deleteTemplate_found L s id j t hfind]
      refine ⟨t, ?_, ?_⟩
      · rw [emit_templates]
        exact hrem
      · exact emit_lateSubscriber s { s with templates := swapRemove s.templates j } _ true
          hinv hopen rfl

/-- Witness of C8 (as amended) on the sample store, which holds three events:
four receives after `AddModule(modB)` deliver them and then the new event. -/
theorem late_subscriber_sees_buffered_events_witness :
    Inv sampleDB ∧ sampleDB.closed = false ∧
      recvMany 4 (Updates (AddModule sampleDB modB).db) =
        sampleDB.updates.buf ++ [{ Typ := "module_added", Data := EventData.module modB }] :=
  have h1 : Inv sampleDB := ⟨by decide, by decide, by decide⟩
  ⟨h1, by decide,
    ((late_subscriber_sees_buffered_events asciiCase sampleDB h1 (by decide)).1 modB).1
      (by decide)⟩

/-! ## C9 -/

theorem eventLoop_closed (ch : Chan) (hclosed : ch.closed = true) (fuel : Nat)
    (hfuel : ch.buf.length < fuel) : eventLoop fuel ch = (ch.buf, LoopEnd.returned) := by
  obtain ⟨buf, cap, closed⟩ := ch
  simp only at hclosed hfuel
  subst hclosed
  induction buf generalizing fuel with
  | nil =>
    cases fuel with
    | zero => simp at hfuel
    | succ n => simp [eventLoop, Chan.recv]
  | cons e rest ih =>
    cases fuel with
    | zero => simp at hfuel
    | succ n =>
      have := ih n (by simpa using hfuel)
      simp [eventLoop, Chan.recv, this]

theorem close_updates (s : DB) (hinv : Inv s) :
    (Close s).out = Outcome.returned () ∧ (Close s).db.closed = true ∧
      (Close s).db.updates.closed = true ∧ (Close s).db.updates.buf = s.updates.buf := by
  unfold Close
  by_cases hc : s.closed = true
  · rw [if_pos hc]
    exact ⟨rfl, hc, hinv.2.2.trans hc, rfl⟩
  · have hch : s.updates.closed = false := by
      rw [hinv.2.2]
      simpa using hc
    rw [if_neg hc]
    simp [Chan.close, hch]

/-- C9 as stated fails: after `AddModule` and then `Close()` on a new store,
the first receive on the stream yields the buffered event with `ok = true`, and
the event loop writes it before it returns. -/
theorem receive_after_close_yields_event :
    (Updates (Close (AddModule NewDB modA).db).db).recv =
        Recv.value { Typ := "module_added", Data := EventData.module modA }
          { buf := [], cap := 100, closed := true } ∧
      eventLoop 2 (Updates (Close (AddModule NewDB modA).db).db) =
        ([{ Typ := "module_added", Data := EventData.module modA }], LoopEnd.returned) := by
  constructor <;> decide

/-- C9 (as amended): for every store state, `Close` returns and leaves the
channel closed with the events that were buffered; the receives performed
afterwards deliver exactly those events, oldest first, and the receive that
follows them reports the closed stream, so the event loop of `streamEvents`
writes the buffered events and returns, never waiting. The first receive after
`Close` reports the closed stream exactly when no event was buffered. -/
theorem receives_after_close (s : DB) (hinv : Inv s) :
    (Close s).out = Outcome.returned () ∧
      (Updates (Close s).db).closed = true ∧
      (Updates (Close s).db).buf = s.updates.buf ∧
      (∀ n, recvMany n (Updates (Close s).db) = s.updates.buf.take n) ∧
      (∀ fuel, s.updates.buf.length < fuel →
        eventLoop fuel (Updates (Close s).db) = (s.updates.buf, LoopEnd.returned)) ∧
      ((Updates (Close s).db).recv = Recv.done ↔ s.updates.buf = []) := by
  obtain ⟨hout, _, hch, hbuf⟩ := close_updates s hinv
  refine ⟨hout, hch, hbuf, ?_, ?_, ?_⟩
  · intro n
    rw [recvMany_eq_take]
    unfold Updates
    rw [hbuf]
  · intro fuel hfuel
    have h := eventLoop_closed (Updates (Close s).db) hch fuel (by unfold Updates; rw [hbuf]; exact hfuel)
    unfold Updates at h ⊢
    rw [h, hbuf]
  · unfold Updates
    unfold Chan.recv
    rw [hbuf]
    cases hb : s.updates.buf with
    | nil => simp [hch]
    | cons e rest => simp

/-- Witness of C9 (as amended) on the sample store, which holds three events. -/
theorem receives_after_close_witness :
    Inv sampleDB ∧
      eventLoop 4 (Updates (Close sampleDB).db) = (sampleDB.updates.buf, LoopEnd.returned) :=
  have h1 : Inv sampleDB := ⟨by decide, by decide, by decide⟩
  ⟨h1, (receives_after_close sampleDB h1).2.2.2.2.1 4 (by decide)⟩

/-! ## C10 -/

/-- C10 as stated fails: after `AddModule(modA)` twice, `DeleteModule` of the id
of `modA` returns true and `GetModules("")` still contains a module with that
id. -/
theorem delete_leaves_duplicate_id :
    (DeleteModule asciiCase dupDB "a1").out = Outcome.returned true ∧
      ∃ m ∈ GetModules asciiCase (DeleteModule asciiCase dupDB "a1").db "",
        asciiCase.EqualFold m.ID "a1" = true :=
  ⟨by decide, modA, by decide, by decide⟩

theorem countP_after_remove {α : Type} (hit : α → Bool) (xs new : List α) (x : α)
    (hperm : xs.Perm (x :: new)) (hx : hit x = true) :
    new.countP hit + 1 = xs.countP hit ∧
      (xs.countP hit = 1 → ∀ y ∈ new, hit y = false) := by
  have h : xs.countP hit = new.countP hit + 1 := by
    rw [hperm.countP_eq, List.countP_cons_of_pos _ _ hx]
  refine ⟨h.symm, ?_⟩
  intro h1 y hy
  have h0 : new.countP hit = 0 := by omega
  rw [List.countP_eq_zero] at h0
  simpa using h0 y hy

/-- C10 (as amended): when `DeleteModule(id)` (resp. `DeleteTemplate(id)`)
returns true, a subsequent `GetModules("")` (resp. `GetTemplates("")`) contains
exactly one entity fewer whose id equals `id` under `EqualFold` than the
collection did before; it contains none when exactly one entity of the
collection had such an id before the call. -/
theorem delete_removes_one_match (L : CaseLib) (s : DB) (id : String) :
    ((DeleteModule L s id).out = Outcome.returned true →
      (GetModules L (DeleteModule L s id).db "").countP (fun m => L.EqualFold m.ID id) + 1 =
        s.modules.countP (fun m => L.EqualFold m.ID id) ∧
      (s.modules.countP (fun m => L.EqualFold m.ID id) = 1 →
        ∀ m ∈ GetModules L (DeleteModule L s id).db "", L.EqualFold m.ID id = false)) ∧
    ((DeleteTemplate L s id).out = Outcome.returned true →
      (GetTemplates L (DeleteTemplate L s id).db "").countP (fun t => L.EqualFold t.ID id) + 1 =
        s.templates.countP (fun t => L.EqualFold t.ID id) ∧
      (s.templates.countP (fun t => L.EqualFold t.ID id) = 1 →
        ∀ t ∈ GetTemplates L (DeleteTemplate L s id).db "", L.EqualFold t.ID id = false)) := by
  constructor
  · intro hout
    cases hfind : rangeFind (fun m : Module => L.EqualFold m.ID id) s.modules 0 with
    | none =>
      rw [deleteModule_absent L s id hfind] at hout
      simp at hout
    | some p =>
      obtain ⟨j, m⟩ := p
      obtain ⟨hrem, _, hperm⟩ := swapRemove_removesFirst _ _ _ _ hfind
      obtain ⟨_, _, _, hm, _⟩ := hrem
      have hget : GetModules L (DeleteModule L s id).db "" = swapRemove s.modules j := by
        rw [deleteModule_found L s id j m hfind]
        simp [GetModules, emit_modules]
      rw [hget]
      exact countP_after_remove (fun m : Module => L.EqualFold m.ID id) _ _ m hperm hm
  · intro hout
    cases hfind : rangeFind (fun t : Template => L.EqualFold t.ID id) s.templates 0 with
    | none =>
      rw [deleteTemplate_absent L s id hfind] at hout
      simp at hout
    | some p =>
      obtain ⟨j, t⟩ := p
      obtain ⟨hrem, _, hperm⟩ := swapRemove_removesFirst _ _ _ _ hfind
      obtain ⟨_, _, _, ht, _⟩ := hrem
      have hget : GetTemplates L (DeleteTemplate L s id).db "" = swapRemove s.templates j := by
        rw [deleteTemplate_found L s id j t hfind]
        simp [GetTemplates, emit_templates]
      rw [hget]
      exact countP_after_remove (fun t : Template => L.EqualFold t.ID id) _ _ t hperm ht

/-- Witness of C10 (as amended) on the sample store: the only module whose id
folds to the given one is removed, and none is left. -/
theorem delete_removes_one_match_witness :
    (DeleteModule asciiCase sampleDB "A1").out = Outcome.returned true ∧
      sampleDB.modules.countP (fun m => asciiCase.EqualFold m.ID "A1") = 1 ∧
      ∀ m ∈ GetModules asciiCase (DeleteModule asciiCase sampleDB "A1").db "",
        asciiCase.EqualFold m.ID "A1" = false :=
  ⟨by decide, by decide,
    ((delete_removes_one_match asciiCase sampleDB "A1").1 (by decide)).2 (by decide)⟩

/-! ## C11 -/

/-- C11: on every store state built from `NewDB()`, `Close` returns nil
without a panic; on an open store it sets the flag `closed` and closes the
channel, which was open, leaving the collections and the buffered events as
they were; on a closed store it leaves the whole state unchanged and does not
close the channel again; hence `Close` after `Close` returns nil and yields the
state of a single `Close`. -/
theorem close_idempotent (s : DB) (hinv : Inv s) :
    (Close s).out = Outcome.returned () ∧
      (s.closed = false →
        s.updates.closed = false ∧
        (Close s).db =
          { s with closed := true, updates := { s.updates with closed := true } }) ∧
      (s.closed = true → Close s = { db := s, out := Outcome.returned () }) ∧
      (Close s).db.closed = true ∧
      (Close s).db.updates.closed = true ∧
      Close (Close s).db = { db := (Close s).db, out := Outcome.returned () } ∧
      (Close (Close s).db).db = (Close s).db := by
  obtain ⟨hout, hcl, hch, _⟩ := close_updates s hinv
  have hshut : ∀ c : DB, c.closed = true → Close c = { db := c, out := Outcome.returned () } := by
    intro c hc
    simp [Close, hc]
  refine ⟨hout, ?_, hshut s, hcl, hch, hshut _ hcl, by rw [hshut _ hcl]⟩
  intro hopen
  have hopen2 : s.updates.closed = false := hinv.2.2.trans hopen
  refine ⟨hopen2, ?_⟩
  simp [Close, hopen, Chan.close, hopen2]

/-- Witness of C11 on the sample store. -/
theorem close_idempotent_witness :
    Inv sampleDB ∧ (Close sampleDB).out = Outcome.returned () ∧
      (Close (Close sampleDB).db).db = (Close sampleDB).db :=
  have h1 : Inv sampleDB := ⟨by decide, by decide, by decide⟩
  ⟨h1, (close_idempotent sampleDB h1).1, (close_idempotent sampleDB h1).2.2.2.2.2.2⟩

/-! ## C12 -/

theorem rangeFind_snd {α : Type} (hit : α → Bool) (xs : List α) (i : Nat) :
    (rangeFind hit xs i).map Prod.snd = xs.find? hit := by
  induction xs generalizing i with
  | nil => simp [rangeFind]
  | cons x xs ih =>
    unfold rangeFind
    by_cases h : hit x = true
    · simp [h]
    · simp [h, ih]

theorem take_singleton_room (e : UpdateEvent) (buf : List UpdateEvent) :
    (if buf.length < 100 then buf ++ [e] else buf) = buf ++ [e].take (100 - buf.length) := by
  by_cases h : buf.length < 100
  · have : 100 - buf.length = (100 - buf.length - 1) + 1 := by omega
    rw [if_pos h, this]
    simp
  · have : 100 - buf.length = 0 := by omega
    rw [if_neg h, this]
    simp

theorem emit_step {α : Type} (s : DB) (e : UpdateEvent) (v : α) (hinv : Inv s)
    (hopen : s.closed = false) :
    (emit s e v).out.isReturned = true ∧ Inv (emit s e v).db ∧
      (emit s e v).db.closed = false ∧
      (emit s e v).db.updates.buf =
        s.updates.buf ++ (some e).toList.take (100 - s.updates.buf.length) := by
  obtain ⟨hout, hbuf, _⟩ := emit_buf s e v hinv hopen
  refine ⟨by rw [hout]; rfl, emit_inv s e v hinv, by rw [emit_closed]; exact hopen, ?_⟩
  rw [hbuf, take_singleton_room]
  rfl

theorem mutate_step (L : CaseLib) (s : DB) (m : Mutation) (hinv : Inv s)
    (hopen : s.closed = false) :
    (mutate L s m).2 = true ∧ Inv (mutate L s m).1 ∧ (mutate L s m).1.closed = false ∧
      (mutate L s m).1.updates.buf =
        s.updates.buf ++ (emittedBy L s m).toList.take (100 - s.updates.buf.length) := by
  cases m with
  | addModule x =>
    exact emit_step { s with modules := s.modules ++ [x] } _ () hinv hopen
  | addTemplate x =>
    exact emit_step { s with templates := s.templates ++ [x] } _ () hinv hopen
  | deleteModule id =>
    have hsnd := rangeFind_snd (fun m : Module => L.EqualFold m.ID id) s.modules 0
    cases hfind : rangeFind (fun m : Module => L.EqualFold m.ID id) s.modules 0 with
    | none =>
      rw [hfind] at hsnd
      simp only [mutate, emittedBy, deleteModule_absent L s id hfind, ← hsnd]
      exact ⟨rfl, hinv, hopen, by simp⟩
    | some p =>
      obtain ⟨j, x⟩ := p
      rw [hfind] at hsnd
      simp only [mutate, emittedBy, deleteModule_found L s id j x hfind, ← hsnd]
      exact emit_step { s with modules := swapRemove s.modules j } _ true hinv hopen
  | deleteTemplate id =>
    have hsnd := rangeFind_snd (fun t : Template => L.EqualFold t.ID id) s.templates 0
    cases hfind : rangeFind (fun t : Template => L.EqualFold t.ID id) s.templates 0 with
    | none =>
      rw [hfind] at hsnd
      simp only [mutate, emittedBy, deleteTemplate_absent L s id hfind, ← hsnd]
      exact ⟨rfl, hinv, hopen, by simp⟩
    | some p =>
      obtain ⟨j, x⟩ := p
      rw [hfind] at hsnd
      simp only [mutate, emittedBy, deleteTemplate_found L s id j x hfind, ← hsnd]
      exact emit_step { s with templates := swapRemove s.templates j } _ true hinv hopen

theorem append_take_room (buf es rest : List UpdateEvent) :
    (buf ++ es.take (100 - buf.length)) ++
        rest.take (100 - (buf ++ es.take (100 - buf.length)).length) =
      buf ++ (es ++ rest).take (100 - buf.length) := by
  rw [List.take_append_eq_append_take, List.append_assoc]
  have hk : 100 - (buf ++ es.take (100 - buf.length)).length = 100 - buf.length - es.length := by
    simp only [List.length_append, List.length_take]
    omega
  rw [hk]

theorem runMutations_buf (L : CaseLib) (ms : List Mutation) (s : DB) (hinv : Inv s)
    (hopen : s.closed = false) :
    ∃ s2, runMutations L s ms = some s2 ∧ Inv s2 ∧ s2.closed = false ∧
      s2.updates.buf =
        s.updates.buf ++ (emittedEvents L s ms).take (100 - s.updates.buf.length) := by
  induction ms generalizing s with
  | nil => exact ⟨s, rfl, hinv, hopen, by simp [emittedEvents]⟩
  | cons m ms ih =>
    obtain ⟨hret, hinv1, hopen1, hbuf1⟩ := mutate_step L s m hinv hopen
    obtain ⟨s2, hrun, hinv2, hopen2, hbuf2⟩ := ih (mutate L s m).1 hinv1 hopen1
    refine ⟨s2, ?_, hinv2, hopen2, ?_⟩
    · simp only [runMutations, hret, if_true]
      exact hrun
    · rw [hbuf2, hbuf1, append_take_room]
      rfl

/-- C12: on every open store, every sequence of mutations applied one after
another runs without a panic and leaves in the channel the events that were
buffered before, followed by the events of the mutations in the order of the
mutations, as many of them as found room among the 100 slots; successive
receives on the stream then deliver the buffered events from the oldest on, so
events are delivered in the order of the mutations that produced them. -/
theorem events_in_mutation_order (L : CaseLib) (s : DB) (hinv : Inv s)
    (hopen : s.closed = false) (ms : List Mutation) :
    ∃ s2, runMutations L s ms = some s2 ∧
      s2.updates.buf =
        s.updates.buf ++ (emittedEvents L s ms).take (100 - s.updates.buf.length) ∧
      (∀ n, recvMany n (Updates s2) =
        (s.updates.buf ++ (emittedEvents L s ms).take (100 - s.updates.buf.length)).take n) ∧
      ((s.updates.buf ++ emittedEvents L s ms).length ≤ 100 →
        recvMany (s.updates.buf ++ emittedEvents L s ms).length (Updates s2) =
          s.updates.buf ++ emittedEvents L s ms) := by
  obtain ⟨s2, hrun, _, _, hbuf⟩ := runMutations_buf L ms s hinv hopen
  refine ⟨s2, hrun, hbuf, ?_, ?_⟩
  · intro n
    rw [recvMany_eq_take]
    unfold Updates
    rw [hbuf]
  · intro hlen
    rw [recvMany_eq_take]
    unfold Updates
    rw [hbuf]
    have hall : (emittedEvents L s ms).take (100 - s.updates.buf.length) =
        emittedEvents L s ms := by
      apply List.take_of_length_le
      simp only [List.length_append] at hlen
      omega
    rw [hall]
    exact List.take_of_length_le (le_refl _)

/-- Witness of C12 on the sample store, which holds three events: a deletion,
an addition and a deletion of an absent id leave five events, the last two
being those of the deletion and of the addition in that order. -/
theorem events_in_mutation_order_witness :
    Inv sampleDB ∧ sampleDB.closed = false ∧
      emittedEvents asciiCase sampleDB
          [Mutation.deleteModule "A1", Mutation.addModule modB, Mutation.deleteModule "zz"] =
        [{ Typ := "module_deleted", Data := EventData.module modA },
          { Typ := "module_added", Data := EventData.module modB }] ∧
      ∃ s2, runMutations asciiCase sampleDB
          [Mutation.deleteModule "A1", Mutation.addModule modB, Mutation.deleteModule "zz"] =
            some s2 ∧
        recvMany 5 (Updates s2) =
          sampleDB.updates.buf ++
            [{ Typ := "module_deleted", Data := EventData.module modA },
              { Typ := "module_added", Data := EventData.module modB }] :=
  have h1 : Inv sampleDB := ⟨by decide, by decide, by decide⟩
  ⟨h1, by decide, by decide,
    (events_in_mutation_order asciiCase sampleDB h1 (by decide)
      [Mutation.deleteModule "A1", Mutation.addModule modB, Mutation.deleteModule "zz"]).imp
      (fun _ h => ⟨h.1, h.2.2.2 (by decide)⟩)⟩

/-! ## C13 -/

theorem rangeFind_append_last {α : Type} (hit : α → Bool) (xs : List α) (x : α) (i : Nat)
    (hmiss : ∀ y ∈ xs, hit y = false) (hx : hit x = true) :
    rangeFind hit (xs ++ [x]) i = some (i + xs.length, x) := by
  induction xs generalizing i with
  | nil => simp [rangeFind, hx]
  | cons a xs ih =>
    have ha : hit a = false := hmiss a (List.mem_cons_self a xs)
    have hrest : ∀ y ∈ xs, hit y = false := fun y hy => hmiss y (List.mem_cons_of_mem a hy)
    have hstep : rangeFind hit (a :: xs ++ [x]) i = rangeFind hit (xs ++ [x]) (i + 1) := by
      simp [rangeFind, ha]
    rw [hstep, ih (i + 1) hrest]
    simp only [List.length_cons]
    congr 2
    omega

theorem swapRemove_last {α : Type} (xs : List α) (x : α) :
    swapRemove (xs ++ [x]) xs.length = xs := by
  rw [swapRemove_append_last, if_neg (Nat.lt_irrefl _)]

/-- C13: `strings.EqualFold` being reflexive, on every open store
`DeleteModule(m.ID)` called right after `AddModule(m)` returns true, and when
no module of the collection had an id equal to `m.ID` under `EqualFold` the
module collection after the two calls is the collection before them, the
templates being untouched; on a new store `GetModules("")` is empty again. The
same holds for `AddTemplate` and `DeleteTemplate`. -/
theorem add_then_delete_roundtrip (L : CaseLib) (hrefl : ∀ x, L.EqualFold x x = true)
    (s : DB) (hinv : Inv s) (hopen : s.closed = false) :
    (∀ m : Module,
      (AddModule s m).out = Outcome.returned () ∧
      (DeleteModule L (AddModule s m).db m.ID).out = Outcome.returned true ∧
      ((∀ x ∈ s.modules, L.EqualFold x.ID m.ID = false) →
        (DeleteModule L (AddModule s m).db m.ID).db.modules = s.modules ∧
        (DeleteModule L (AddModule s m).db m.ID).db.templates = s.templates)) ∧
    (∀ t : Template,
      (AddTemplate s t).out = Outcome.returned () ∧
      (DeleteTemplate L (AddTemplate s t).db t.ID).out = Outcome.returned true ∧
      ((∀ x ∈ s.templates, L.EqualFold x.ID t.ID = false) →
        (DeleteTemplate L (AddTemplate s t).db t.ID).db.templates = s.templates ∧
        (DeleteTemplate L (AddTemplate s t).db t.ID).db.modules = s.modules)) ∧
    (∀ m : Module, GetModules L (DeleteModule L (AddModule NewDB m).db m.ID).db "" = []) ∧
    (∀ t : Template,
      GetTemplates L (DeleteTemplate L (AddTemplate NewDB t).db t.ID).db "" = []) := by
  have hmod : ∀ (s : DB) (m : Module), Inv s → s.closed = false →
      (AddModule s m).out = Outcome.returned () ∧
      (DeleteModule L (AddModule s m).db m.ID).out = Outcome.returned true ∧
      ((∀ x ∈ s.modules, L.EqualFold x.ID m.ID = false) →
        (DeleteModule L (AddModule s m).db m.ID).db.modules = s.modules ∧
        (DeleteModule L (AddModule s m).db m.ID).db.templates = s.templates) := by
    intro s m hinv hopen
    obtain ⟨hret, hinv1, hopen1, _⟩ := emit_step { s with modules := s.modules ++ [m] }
      { Typ := "module_added", Data := EventData.module m } () hinv hopen
    have hout : (AddModule s m).out = Outcome.returned () :=
      (emit_buf { s with modules := s.modules ++ [m] } _ () hinv hopen).1
    have hch : (AddModule s m).db.updates.closed = false := hinv1.2.2.trans hopen1
    have hmods : (AddModule s m).db.modules = s.modules ++ [m] := emit_modules _ _ _
    have htpls : (AddModule s m).db.templates = s.templates := emit_templates _ _ _
    refine ⟨hout, ?_, ?_⟩
    · obtain ⟨j, x, hfind⟩ := rangeFind_isSome (fun y : Module => L.EqualFold y.ID m.ID)
        (AddModule s m).db.modules 0 ⟨m, by rw [hmods]; simp, hrefl m.ID⟩
      rw [deleteModule_found L _ m.ID j x hfind]
      exact (emit_open { (AddModule s m).db with
        modules := swapRemove (AddModule s m).db.modules j } _ _ hch).1
    · intro hmiss
      have hfind : rangeFind (fun y : Module => L.EqualFold y.ID m.ID)
          (AddModule s m).db.modules 0 = some (s.modules.length, m) := by
        rw [hmods, rangeFind_append_last _ _ _ _ hmiss (hrefl m.ID), Nat.zero_add]
      rw [deleteModule_found L _ m.ID _ m hfind, emit_modules, emit_templates]
      exact ⟨by simp only [hmods, swapRemove_last], htpls⟩
  have htpl : ∀ (s : DB) (t : Template), Inv s → s.closed = false →
      (AddTemplate s t).out = Outcome.returned () ∧
      (DeleteTemplate L (AddTemplate s t).db t.ID).out = Outcome.returned true ∧
      ((∀ x ∈ s.templates, L.EqualFold x.ID t.ID = false) →
        (DeleteTemplate L (AddTemplate s t).db t.ID).db.templates = s.templates ∧
        (DeleteTemplate L (AddTemplate s t).db t.ID).db.modules = s.modules) := by
    intro s t hinv hopen
    obtain ⟨hret, hinv1, hopen1, _⟩ := emit_step { s with templates := s.templates ++ [t] }
      { Typ := "template_added", Data := EventData.template t } () hinv hopen
    have hout : (AddTemplate s t).out = Outcome.returned () :=
      (emit_buf { s with templates := s.templates ++ [t] } _ () hinv hopen).1
    have hch : (AddTemplate s t).db.updates.closed = false := hinv1.2.2.trans hopen1
    have htpls : (AddTemplate s t).db.templates = s.templates ++ [t] := emit_templates _ _ _
    have hmods : (AddTemplate s t).db.modules = s.modules := emit_modules _ _ _
    refine ⟨hout, ?_, ?_⟩
    · obtain ⟨j, x, hfind⟩ := rangeFind_isSome (fun y : Template => L.EqualFold y.ID t.ID)
        (AddTemplate s t).db.templates 0 ⟨t, by rw [htpls]; simp, hrefl t.ID⟩
      rw [deleteTemplate_found L _ t.ID j x hfind]
      exact (emit_open { (AddTemplate s t).db with
        templates := swapRemove (AddTemplate s t).db.templates j } _ _ hch).1
    · intro hmiss
      have hfind : rangeFind (fun y : Template => L.EqualFold y.ID t.ID)
          (AddTemplate s t).db.templates 0 = some (s.templates.length, t) := by
        rw [htpls, rangeFind_append_last _ _ _ _ hmiss (hrefl t.ID), Nat.zero_add]
      rw [deleteTemplate_found L _ t.ID _ t hfind, emit_templates, emit_modules]
      exact ⟨by simp only [htpls, swapRemove_last], hmods⟩
  refine ⟨fun m => hmod s m hinv hopen, fun t => htpl s t hinv hopen, ?_, ?_⟩
  · intro m
    have h := ((hmod NewDB m inv_NewDB rfl).2.2 (by intro x hx; cases hx)).1
    simp only [GetModules, if_true]
    rw [h]
    rfl
  · intro t
    have h := ((htpl NewDB t inv_NewDB rfl).2.2 (by intro x hx; cases hx)).1
    simp only [GetTemplates, if_true]
    rw [h]
    rfl

/-- Witness of C13 on the sample store with a module whose id is new, for the
ASCII case tables, whose `EqualFold` is reflexive. -/
theorem add_then_delete_roundtrip_witness :
    (∀ x, asciiCase.EqualFold x x = true) ∧ Inv sampleDB ∧ sampleDB.closed = false ∧
      (DeleteModule asciiCase (AddModule sampleDB (mkModule "c3" "gamma")).db "c3").out =
        Outcome.returned true ∧
      (DeleteModule asciiCase (AddModule sampleDB (mkModule "c3" "gamma")).db "c3").db.modules =
        sampleDB.modules :=
  have h0 : ∀ x, asciiCase.EqualFold x x = true := fun x => by simp [asciiCase]
  have h1 : Inv sampleDB := ⟨by decide, by decide, by decide⟩
  ⟨h0, h1, by decide,
    ((add_then_delete_roundtrip asciiCase h0 sampleDB h1 (by decide)).1
      (mkModule "c3" "gamma")).2.1,
    (((add_then_delete_roundtrip asciiCase h0 sampleDB h1 (by decide)).1
      (mkModule "c3" "gamma")).2.2 (by decide)).1⟩

end Registry
